import Mathlib

/-!
Verification of the booking-bot dialogue engine (`src/app.py`).

The Python source is shallowly embedded: strings are Lean `String`s
(processed as `List Char`), the per-user session is an explicit
`SessionState` record, the two external collaborators (the LLM slot
extractor and the RAG answer generator) are function parameters of the
`chat` turn function, and Python exceptions raised by the extractor are
an explicit `ExtractResult` sum type.  Character classes from the Python
regexes are expressed through `Char.toNat` codes (48 = digit zero,
45 = dash, 64 = at-sign, and so on) so that arithmetic reasoning works.
-/

/-- Numeric code of a character (Python `ord`). -/
def cv (c : Char) : Nat := c.toNat

/-- Start code points of the decimal-digit blocks of Unicode 14.0
(category Nd), the version shipped with CPython 3.11: every block is
exactly ten consecutive code points carrying the digit values zero to
nine. -/
def digitBlockStarts : List Nat :=
  [48, 1632, 1776, 1984, 2406, 2534, 2662, 2790, 2918, 3046, 3174, 3302,
   3430, 3558, 3664, 3792, 3872, 4160, 4240, 6112, 6160, 6470, 6608, 6784,
   6800, 6992, 7088, 7232, 7248, 42528, 43216, 43264, 43472, 43504, 43600,
   44016, 65296, 66720, 68912, 69734, 69872, 69942, 70096, 70384, 70736,
   70864, 71248, 71360, 71472, 71904, 72016, 72784, 73040, 73120, 92768,
   92864, 93008, 120782, 120792, 120802, 120812, 120822, 123200, 123632,
   125264, 130032]

/-- Block start of a decimal digit, when the code point is one. -/
def digitStart? (n : Nat) : Option Nat :=
  digitBlockStarts.find? (fun s => s ≤ n && n ≤ s + 9)

/-- The regex class `\d`: the `_strptime` patterns are compiled without
`re.ASCII`, so `\d` matches any Unicode decimal digit, not only the
ASCII ones. -/
def isDig (c : Char) : Bool := (digitStart? (cv c)).isSome

/-- Decimal value of a digit character, as `int()` reads it: the offset
inside its digit block. -/
def dVal (c : Char) : Nat :=
  match digitStart? (cv c) with
  | some s => cv c - s
  | none => 0

/-- An ASCII digit.  The explicit bracket classes of the `_strptime`
regexes (`[1-9]`, `[0-2]`, `[0-5]` and the literal digits) are plain
code-point ranges, so they match ASCII only, in contrast to `\d`. -/
def isAsciiDigit (c : Char) : Bool := 48 ≤ cv c && cv c ≤ 57

/-- Value of a digit string read left to right (Python `int`). -/
def digitsVal (l : List Char) : Nat := l.foldl (fun a c => 10 * a + dVal c) 0

/-- Code points treated as whitespace by Python's `str.strip` and by the
`\s` regex class (ASCII whitespace plus the Unicode whitespace points). -/
def pyWsCodes : List Nat :=
  [9, 10, 11, 12, 13, 28, 29, 30, 31, 32, 133, 160, 5760,
   8192, 8193, 8194, 8195, 8196, 8197, 8198, 8199, 8200, 8201, 8202,
   8232, 8233, 8239, 8287, 12288]

/-- Whitespace test matching Python's notion of whitespace. -/
def isPyWs (c : Char) : Bool := pyWsCodes.contains (cv c)

/-- Python `str.strip()`: drop whitespace from both ends. -/
def pyStrip (s : String) : String :=
  String.mk ((((s.data.dropWhile isPyWs).reverse).dropWhile isPyWs).reverse)

/-- Python `str.lower()` on one character (ASCII range, which covers every
string the program compares case-insensitively). -/
def lowerChar (c : Char) : Char :=
  if 65 ≤ cv c && cv c ≤ 90 then Char.ofNat (cv c + 32) else c

/-- Python `str.lower()`. -/
def pyLower (s : String) : String := String.mk (s.data.map lowerChar)

/-- Python `sep.join(parts)`. -/
def joinSep (sep : String) : List String → String
  | [] => ""
  | [x] => x
  | x :: xs => x ++ sep ++ joinSep sep xs

/-- Python slice `l[-n:]`: the last `n` elements. -/
def lastN (n : Nat) (l : List α) : List α := l.drop (l.length - n)

/-- Python substring test `needle in hay` over character lists. -/
def isSubstr (needle hay : List Char) : Bool :=
  hay.tails.any (fun t => needle.isPrefixOf t)

/-! ### Field validators (`validate_date`, `validate_time`, `is_valid_email`)

`validate_date` runs `datetime.strptime(date_str, "%Y-%m-%d")`.  CPython
compiles that format to the anchored regex
`(\d\d\d\d)-(1[0-2]|0[1-9]|[1-9])-(3[01]|[12]\d|0[1-9]|[1-9])`, matches a
prefix of the input, raises `ValueError` when unmatched or when
characters remain, and finally builds a `datetime`, which checks
`1 <= year <= 9999` and that the day exists in the given month.  The
embedding below reproduces exactly that: the month group needs genuine
regex backtracking (both two-character and one-character alternatives are
tried against the rest of the pattern), while the day group is final, so
its first textually matching alternative is committed and any leftover
characters make the whole call fail.  Each `\d` accepts any Unicode
decimal digit (the pattern is compiled without `re.ASCII`), while the
bracket classes and literal digits are ASCII-only; hence the year is
four arbitrary decimal digits, the month is ASCII-only, and in the day
only the second character of the `[12]\d` alternative may be a
non-ASCII digit. -/

/-- Gregorian leap-year rule used by Python's `datetime`. -/
def isLeap (y : Nat) : Bool := (y % 4 = 0 && y % 100 ≠ 0) || y % 400 = 0

/-- Number of days of month `m` in year `y` (Python `datetime` calendar). -/
def daysInMonth (y m : Nat) : Nat :=
  if m = 2 then (if isLeap y then 29 else 28)
  else if m = 4 || m = 6 || m = 9 || m = 11 then 30
  else 31

/-- Range checks performed by the `datetime` constructor once the regex
has produced year, month and day numbers. -/
def dateOk (y m d : Nat) : Bool :=
  (1 ≤ y && y ≤ 9999) && (1 ≤ m && m ≤ 12) && (1 ≤ d && d ≤ daysInMonth y m)

/-- Day group `3[01]|[12]\d|0[1-9]|[1-9]`, two-character alternatives.
Code 51 is the character three, 48-57 are the digits, 49-50 are one to
two, 49-57 are one to nine. -/
def twoDay (c d : Char) : Bool :=
  (cv c = 51 && (cv d = 48 || cv d = 49)) ||
  ((cv c = 49 || cv c = 50) && isDig d) ||
  (cv c = 48 && (49 ≤ cv d && cv d ≤ 57))

/-- Day group, one-character alternative `[1-9]`. -/
def oneDay (c : Char) : Bool := 49 ≤ cv c && cv c ≤ 57

/-- Match the day group against the rest of the input; the group is last
in the pattern, so after it the input must be exhausted. -/
def dayPart (y m : Nat) : List Char → Bool
  | [c] => oneDay c && dateOk y m (dVal c)
  | [c, d] => twoDay c d && dateOk y m (10 * dVal c + dVal d)
  | _ => false

/-- Literal dash between month and day groups. -/
def afterMonth (y m : Nat) : List Char → Bool
  | c :: r => (c == '-') && dayPart y m r
  | _ => false

/-- Month group `1[0-2]|0[1-9]|[1-9]`, two-character alternatives
(codes: 49 is the character one, 48-50 are zero to two, 48 is zero,
49-57 are one to nine). -/
def monthTwo (y : Nat) : List Char → Bool
  | a :: c :: r =>
      ((cv a = 49 && (48 ≤ cv c && cv c ≤ 50)) && afterMonth y (10 + dVal c) r) ||
      ((cv a = 48 && (49 ≤ cv c && cv c ≤ 57)) && afterMonth y (dVal c) r)
  | _ => false

/-- Month group, one-character alternative `[1-9]`. -/
def monthOne (y : Nat) : List Char → Bool
  | c :: r => (49 ≤ cv c && cv c ≤ 57) && afterMonth y (dVal c) r
  | [] => false

/-- Month group with regex backtracking across the alternatives. -/
def monthPart (y : Nat) (l : List Char) : Bool := monthTwo y l || monthOne y l

/-- Full `%Y-%m-%d` match on a character list: four digits, a dash, then
the month group, a dash, and the day group. -/
def dateMatch : List Char → Bool
  | c1 :: c2 :: c3 :: c4 :: c5 :: r =>
      (isDig c1 && isDig c2 && isDig c3 && isDig c4) && (c5 == '-') &&
      monthPart (1000 * dVal c1 + 100 * dVal c2 + 10 * dVal c3 + dVal c4) r
  | _ => false

/-- Embedding of `validate_date` (app.py lines 89-94). -/
def validate_date (s : String) : Bool := dateMatch s.data

/-! `validate_time` runs `datetime.strptime(time_str, "%H:%M")`, whose
regex is `(2[0-3]|[0-1]\d|\d):([0-5]\d|\d)`. -/

/-- Minute group `[0-5]\d|\d`; the group is last, so the first matching
alternative is committed and the input must end with it (codes 48-53 are
zero to five). -/
def minutePart : List Char → Bool
  | [c] => isDig c
  | [c, d] => (48 ≤ cv c && cv c ≤ 53) && isDig d
  | _ => false

/-- Literal colon (code 58) between hour and minute groups. -/
def afterHour : List Char → Bool
  | c :: r => (c == ':') && minutePart r
  | _ => false

/-- Hour group `2[0-3]|[0-1]\d|\d` with backtracking (code 50 is the
character two, 48-51 are zero to three, 48-49 are zero to one). -/
def hourPart (l : List Char) : Bool :=
  (match l with
   | a :: b :: r => ((cv a = 50 && (48 ≤ cv b && cv b ≤ 51)) && afterHour r) ||
                    (((48 ≤ cv a && cv a ≤ 49) && isDig b) && afterHour r)
   | _ => false) ||
  (match l with
   | a :: r => isDig a && afterHour r
   | [] => false)

/-- Embedding of `validate_time` (app.py lines 96-101). -/
def validate_time (s : String) : Bool := hourPart s.data

/-! `is_valid_email` matches `^[^@\s]+@[^@\s]+\.[a-zA-Z0-9]+$` with
`re.match`.  In Python a final `$` also matches just before one newline
at the very end of the string, so a single trailing newline is
tolerated. -/

/-- Character class `[^@\s]`: anything but the at-sign (code 64) and
whitespace. -/
def noAtWs (c : Char) : Bool := !(cv c = 64) && !(isPyWs c)

/-- Character class `[a-zA-Z0-9]`. -/
def isAlnumAscii (c : Char) : Bool :=
  (48 ≤ cv c && cv c ≤ 57) || (65 ≤ cv c && cv c ≤ 90) || (97 ≤ cv c && cv c ≤ 122)

/-- Match `([^@\s])*\.[a-zA-Z0-9]+` at the current position: either the
final dot (code 46) starts here, followed only by the alphanumeric
top-level part, or one more domain character is consumed. -/
def emailDomRest : List Char → Bool
  | [] => false
  | c :: cs => ((cv c = 46) && (!cs.isEmpty && cs.all isAlnumAscii)) ||
               (noAtWs c && emailDomRest cs)

/-- Match `[^@\s]+\.[a-zA-Z0-9]+` (the part after the at-sign). -/
def emailDom : List Char → Bool
  | [] => false
  | c :: cs => noAtWs c && emailDomRest cs

/-- Match `([^@\s])*@[^@\s]+\.[a-zA-Z0-9]+` at the current position. -/
def emailLocalRest : List Char → Bool
  | [] => false
  | c :: cs => ((cv c = 64) && emailDom cs) || (noAtWs c && emailLocalRest cs)

/-- Full match of the email pattern body. -/
def emailMatch : List Char → Bool
  | [] => false
  | c :: cs => noAtWs c && emailLocalRest cs

/-- Python `$` semantics: one newline (code 10) at the very end of the
input is invisible to an anchored match. -/
def stripNl (l : List Char) : List Char :=
  match l.getLast? with
  | some c => if cv c = 10 then l.dropLast else l
  | none => l

/-- Embedding of `is_valid_email` (app.py lines 49-51). -/
def is_valid_email (s : String) : Bool := emailMatch (stripNl s.data)

/-! ### Placeholder detector and keyword router -/

/-- The fixed denylist of known hallucinated or placeholder values
(app.py lines 146-149), verbatim including the duplicate entry and the
two mixed-case sentences. -/
def badValues : List String :=
  ["", "john doe", "your name", "name", "example", "abc@example.com",
   "johndoe@example.com", "johndoe@example.com", "john@example.com",
   "someone@example.com", "user", "user@gmail.com", "user@example.com",
   "unknown", "unknown@gmail.com", "You didn\x27t mention your name",
   "You didn\x27t mention your email"]

/-- Membership test `value in bad_values`. -/
def isBadValue (v : String) : Bool := badValues.contains v

/-- Normalization applied before the membership test:
`value.strip().lower()`. -/
def normVal (s : String) : String := pyLower (pyStrip s)

/-- The booking keyword list (app.py line 123). -/
def bookingKeywords : List String :=
  ["book", "appointment", "schedule", "reserve", "meeting", "session", "therapy"]

/-- Keyword router test: `any(word in msg.lower() for word in booking_keywords)`. -/
def containsKeyword (msg : String) : Bool :=
  bookingKeywords.any (fun w => isSubstr w.data (pyLower msg).data)

/-! ### Data model -/

/-- One conversation turn `{"role": ..., "content": ...}`. -/
structure DialogTurn where
  role : String
  content : String
deriving DecidableEq

/-- The per-user session: conversation history, the booking flag and the
five slot values (`session.get(field, "")` makes the empty string the
absent value). -/
structure SessionState where
  conversationHistory : List DialogTurn
  bookingInProgress : Bool
  name : String
  email : String
  service : String
  date : String
  time : String
deriving DecidableEq

/-- The extractor output schema (pydantic model `BookingInfo`). -/
structure BookingInfo where
  name : String
  email : String
  service : String
  date : String
  time : String
deriving DecidableEq

/-- Outcome of the `booking_chain.invoke` call: a parsed `BookingInfo`,
a pydantic `ValidationError` carrying the offending field names
(`[e["loc"][0] for e in ve.errors()]`), or any other exception. -/
inductive ExtractResult where
  | ok (info : BookingInfo)
  | schemaFailure (fields : List String)
  | extractFailure
deriving DecidableEq

/-- The fixed field order `required_fields` (app.py line 145). -/
def requiredFields : List String := ["name", "email", "service", "date", "time"]

/-- Read one extracted field by name (`getattr(booking_info, field, "")`). -/
def infoValue (b : BookingInfo) : String → String
  | "name" => b.name
  | "email" => b.email
  | "service" => b.service
  | "date" => b.date
  | "time" => b.time
  | _ => ""

/-- Read one session slot by name (`session.get(field, "")`). -/
def slotValue (st : SessionState) : String → String
  | "name" => st.name
  | "email" => st.email
  | "service" => st.service
  | "date" => st.date
  | "time" => st.time
  | _ => ""

/-! ### Booking dialogue engine -/

/-- The combined extractor input (app.py line 138): known slots rendered
as natural-language statements, a space, then the raw message. -/
def combinedInput (st : SessionState) (msg : String) : String :=
  joinSep " "
    ((requiredFields.filterMap (fun f =>
      let v := slotValue st f
      if v = "" then none else some ("My " ++ f ++ " is " ++ v ++ "."))))
  ++ " " ++ msg

/-- One syntactic-validation step of the missing-field computation: the
field is appended when its validator failed and it is not already
listed. -/
def appendUnless (l : List String) (f : String) (valid : Bool) : List String :=
  if !(l.contains f) && !valid then l ++ [f] else l

/-- The missing-field computation (app.py lines 151-163): first one pass
over the fields in fixed order collecting bad-value hits, then the
date, time and email syntactic checks in that sequence, each appending
its field unless already collected. -/
def missingFields (b : BookingInfo) : List String :=
  appendUnless (appendUnless (appendUnless
    (requiredFields.filter (fun f => isBadValue (normVal (infoValue b f))))
    "date" (validate_date b.date)) "time" (validate_time b.time))
    "email" (is_valid_email b.email)

/-- Slot persistence for one field (app.py lines 166-169): the stripped
value overwrites the stored one unless its lowercase form is denylisted. -/
def keepOrUpdate (old v : String) : String :=
  let t := pyStrip v
  if isBadValue (pyLower t) then old else t

/-- The persistence loop over all five fields. -/
def persistSlots (st : SessionState) (b : BookingInfo) : SessionState :=
  { st with
    name := keepOrUpdate st.name b.name,
    email := keepOrUpdate st.email b.email,
    service := keepOrUpdate st.service b.service,
    date := keepOrUpdate st.date b.date,
    time := keepOrUpdate st.time b.time }

/-! ### Booking URL construction

`urllib.parse.urlencode` with its default `quote_via=quote_plus`
percent-encodes the UTF-8 bytes of each key and value, keeping ASCII
letters, digits, underscore, dot, dash and tilde, and turning a space
into a plus sign; hex digits are upper case.  `urljoin(request.host_url,
"book")` appends `book` to the host URL, which always ends in a slash,
so the embedding takes the host URL as an opaque slash-terminated
parameter. -/

/-- UTF-8 bytes of one code point. -/
def utf8Bytes (n : Nat) : List Nat :=
  if n < 128 then [n]
  else if n < 2048 then [192 + n / 64, 128 + n % 64]
  else if n < 65536 then [224 + n / 4096, 128 + n / 64 % 64, 128 + n % 64]
  else [240 + n / 262144, 128 + n / 4096 % 64, 128 + n / 64 % 64, 128 + n % 64]

/-- Upper-case hex digit. -/
def hexDigit (n : Nat) : Char := Char.ofNat (if n < 10 then 48 + n else 55 + n)

/-- Bytes kept verbatim by `quote_plus`: ASCII alphanumerics and
underscore (95), dot (46), dash (45), tilde (126). -/
def quoteSafeByte (b : Nat) : Bool :=
  (48 ≤ b && b ≤ 57) || (65 ≤ b && b ≤ 90) || (97 ≤ b && b ≤ 122) ||
  b = 95 || b = 46 || b = 45 || b = 126

/-- `quote_plus` on one byte: safe bytes kept, space (32) becomes a plus,
everything else becomes a percent escape. -/
def quoteByte (b : Nat) : String :=
  if quoteSafeByte b then String.mk [Char.ofNat b]
  else if b = 32 then "+"
  else String.mk ['%', hexDigit (b / 16), hexDigit (b % 16)]

/-- `urllib.parse.quote_plus` on a string. -/
def quote_plus (s : String) : String :=
  String.join (((s.data.flatMap (fun c => utf8Bytes (cv c))).map quoteByte))

/-- `urllib.parse.urlencode` over an association list (Python dicts
iterate in insertion order). -/
def urlencode (ps : List (String × String)) : String :=
  joinSep "&" (ps.map (fun p => quote_plus p.1 ++ "=" ++ quote_plus p.2))

/-- The booking URL built on completion (app.py lines 180-188). -/
def bookingUrlOf (hostUrl : String) (st : SessionState) : String :=
  hostUrl ++ "book" ++ "?" ++
  urlencode [("name", st.name), ("email", st.email), ("service", st.service),
             ("date", st.date), ("time", st.time)]

/-- The completion reply embedding the booking link (app.py line 189). -/
def completionReply (url : String) : String :=
  "You can complete your booking here: <a href=\x27" ++ url ++
  "\x27 target=\x27_blank\x27>" ++ url ++ "</a>"

/-- The fixed recovery reply of the generic exception handler
(app.py line 204). -/
def genericRecoveryReply : String :=
  "Sorry, I couldn\x27t understand all the booking details. Could you please provide your name, email, preferred date, and time?"

/-! ### General question-answering fallback -/

/-- Render one history entry as a context line. -/
def renderTurn (t : DialogTurn) : String := t.role ++ ": " ++ t.content

/-- The query string handed to the RAG chain (app.py lines 210-213):
the last six history entries (the new user message is already the last
of them) each on one line, then the user message once more. -/
def qaInput (history : List DialogTurn) (msg : String) : String :=
  joinSep "\n" ((lastN 6 history).map renderTurn) ++ "\nuser: " ++ msg

/-! ### The request handler -/

/-- Mode router (app.py line 124). -/
def isBookingFlow (st : SessionState) (msg : String) : Bool :=
  containsKeyword msg || st.bookingInProgress

/-- Embedding of the `chat` handler (app.py lines 114-221) for one turn.
`extract` is the slot-extractor collaborator (its exceptions appear as
`ExtractResult` alternatives) and `rag` the retrieval-augmented answer
generator; both are opaque function parameters.  The result is the new
session state paired with the reply text. -/
def chat (extract : String → ExtractResult) (rag : String → String)
    (hostUrl : String) (st : SessionState) (msg : String) :
    SessionState × String :=
  let hist := st.conversationHistory ++ [⟨"user", msg⟩]
  if isBookingFlow st msg then
    let st1 := { st with bookingInProgress := true }
    match extract (combinedInput st msg) with
    | .ok info =>
      let missing := missingFields info
      let st2 := persistSlots st1 info
      if missing.isEmpty then
        let st3 := { st2 with bookingInProgress := false }
        let reply := completionReply (bookingUrlOf hostUrl st3)
        ({ st3 with conversationHistory := hist ++ [⟨"assistant", reply⟩] }, reply)
      else
        let reply := "Sure! To proceed, please provide your " ++
                     joinSep ", " missing ++ "."
        ({ st2 with conversationHistory := hist ++ [⟨"assistant", reply⟩] }, reply)
    | .schemaFailure flds =>
      let reply := "Missing or invalid: " ++ joinSep ", " flds ++
                   ". Please provide them."
      ({ st1 with conversationHistory := hist ++ [⟨"assistant", reply⟩] }, reply)
    | .extractFailure =>
      let reply := genericRecoveryReply
      ({ st1 with conversationHistory := hist ++ [⟨"assistant", reply⟩] }, reply)
  else
    let answer := rag (qaInput hist msg)
    ({ st with conversationHistory := hist ++ [⟨"assistant", answer⟩] }, answer)

/-! ### Specification-side predicates used by the claims -/

/-- The claim-side trigger condition: the lower-cased message contains
one of the booking keywords as a substring. -/
def keywordTriggered (msg : String) : Prop :=
  ∃ w ∈ bookingKeywords, ∃ pre post, (pyLower msg).data = pre ++ w.data ++ post

/-- Order predicate of the claim: the listed names appear in the fixed
field order name, email, service, date, time. -/
def fixedFieldOrder (l : List String) : Prop :=
  l.Pairwise (fun a b => requiredFields.indexOf a < requiredFields.indexOf b)

/-- The claim-side reading of the email shape: no whitespace anywhere,
and a split into non-empty local part, domain and top-level part. -/
def emailClaimShape (s : String) : Prop :=
  (∀ c ∈ s.data, isPyWs c = false) ∧
  ∃ lp dmn tld : List Char, s.data = lp ++ '@' :: (dmn ++ '.' :: tld) ∧
    lp ≠ [] ∧ dmn ≠ [] ∧ tld ≠ []

/-- What the code actually accepts: after discarding at most one trailing
newline, a non-empty at-free whitespace-free local part, an at-sign, a
non-empty at-free whitespace-free middle (which may contain further
dots), a dot, and a non-empty alphanumeric top-level part. -/
def emailAmendedSpec (s : String) : Prop :=
  ∃ lp mid tld : List Char,
    stripNl s.data = lp ++ '@' :: (mid ++ '.' :: tld) ∧
    lp ≠ [] ∧ lp.all noAtWs = true ∧
    mid ≠ [] ∧ mid.all noAtWs = true ∧
    tld ≠ [] ∧ tld.all isAlnumAscii = true

/-- The claim-side reading of the date shape: strictly zero-padded
four-digit year, two-digit month and two-digit day forming a real
calendar date. -/
def zeroPaddedDateShape (s : String) : Prop :=
  ∃ ys ms ds : List Char, s.data = ys ++ '-' :: (ms ++ '-' :: ds) ∧
    ys.length = 4 ∧ ms.length = 2 ∧ ds.length = 2 ∧
    ys.all isAsciiDigit = true ∧ ms.all isAsciiDigit = true ∧
    ds.all isAsciiDigit = true ∧
    1 ≤ digitsVal ys ∧ 1 ≤ digitsVal ms ∧ digitsVal ms ≤ 12 ∧
    1 ≤ digitsVal ds ∧ digitsVal ds ≤ daysInMonth (digitsVal ys) (digitsVal ms)

/-- Shape of a day field the day group can accept: one or two digits,
whose first digit is always ASCII (every alternative opens with an
ASCII class), and whose second digit may be any Unicode decimal digit
after a leading one or two (the `[12]\d` alternative) but must be
ASCII in the zero-padded and thirty/thirty-one forms. -/
def dayShape (ds : List Char) : Prop :=
  (∃ c, ds = [c] ∧ isAsciiDigit c = true) ∨
  (∃ c d, ds = [c, d] ∧ isAsciiDigit c = true ∧ isDig d = true ∧
    (cv c = 49 ∨ cv c = 50 ∨ isAsciiDigit d = true))

/-- What the code actually accepts: a year of four Unicode decimal
digits, an ASCII month of one or two digits, and a day of the shape
above (zero padding optional), forming a real calendar date of the
Python `datetime` range. -/
def dateSpecL (l : List Char) : Prop :=
  ∃ ys ms ds : List Char,
    l = ys ++ '-' :: (ms ++ '-' :: ds) ∧
    ys.length = 4 ∧ ys.all isDig = true ∧
    (ms.length = 1 ∨ ms.length = 2) ∧ ms.all isAsciiDigit = true ∧
    dayShape ds ∧
    1 ≤ digitsVal ys ∧ 1 ≤ digitsVal ms ∧ digitsVal ms ≤ 12 ∧
    1 ≤ digitsVal ds ∧ digitsVal ds ≤ daysInMonth (digitsVal ys) (digitsVal ms)


/-! ### Helper lemmas -/

/-- Substring test characterization. -/
theorem isSubstr_iff (n h : List Char) :
    isSubstr n h = true ↔ ∃ pre post, h = pre ++ n ++ post := by
  unfold isSubstr
  rw [List.any_eq_true]
  constructor
  · rintro ⟨t, ht, hp⟩
    rw [List.mem_tails] at ht
    rw [List.isPrefixOf_iff_prefix] at hp
    obtain ⟨pre, hpre⟩ := ht
    obtain ⟨post, hpost⟩ := hp
    exact ⟨pre, post, by rw [← hpre, ← hpost, List.append_assoc]⟩
  · rintro ⟨pre, post, rfl⟩
    refine ⟨n ++ post, ?_, ?_⟩
    · rw [List.mem_tails]
      exact ⟨pre, by rw [List.append_assoc]⟩
    · rw [List.isPrefixOf_iff_prefix]
      exact ⟨post, rfl⟩

/-- A filter of the required-field list keeps the fixed field order. -/
theorem filter_requiredFields_pairwise (p : String → Bool) :
    (requiredFields.filter p).Pairwise
      (fun a b => requiredFields.indexOf a < requiredFields.indexOf b) :=
  List.Pairwise.sublist (List.filter_sublist _) (by decide)

/-- Rendering a history window whose last entry is known produces a
context string ending in that entry's line. -/
theorem joinSep_getLast (l : List DialogTurn) (t : DialogTurn)
    (h : l.getLast? = some t) :
    ∃ pre : String, joinSep "\n" (l.map renderTurn) = pre ++ renderTurn t := by
  induction l with
  | nil => simp at h
  | cons x xs ih =>
    cases xs with
    | nil =>
      simp [List.getLast?] at h
      subst h
      exact ⟨"", by simp [joinSep]⟩
    | cons y ys =>
      have h2 : (y :: ys).getLast? = some t := by
        rw [← h]; symm; exact List.getLast?_cons_cons
      obtain ⟨pre, hpre⟩ := ih h2
      refine ⟨renderTurn x ++ "\n" ++ pre, ?_⟩
      show renderTurn x ++ "\n" ++ joinSep "\n" ((y :: ys).map renderTurn) = _
      rw [hpre]
      simp only [String.append_assoc]

/-! ### C1: the placeholder detector and its own denylist -/

/-- Claim C1 (code bug): the denylist itself contains the two mixed-case
sentences, but because every value is lower-cased before the membership
test, no input can ever hit them: the detector reports both sentences
good even though they are members of the Bad-Value Set, contradicting
the spec's promise that every string of the set is reported bad. -/
theorem c1_placeholder_detector_code_bug :
    badValues.contains "You didn\x27t mention your name" = true ∧
    badValues.contains "You didn\x27t mention your email" = true ∧
    isBadValue (normVal "You didn\x27t mention your name") = false ∧
    isBadValue (normVal "You didn\x27t mention your email") = false := by
  decide

/-! ### C5: slot persistence on successful extraction -/

/-- Claim C5: on a booking turn with successful extraction, every field
whose normalized value is off the denylist is overwritten in the session
with the stripped, case-preserving extracted value (no syntactic
validation is consulted), and denylisted fields keep their stored value. -/
theorem c5_persistence (extract : String → ExtractResult)
    (rag : String → String) (hostUrl : String) (st : SessionState)
    (msg : String) (info : BookingInfo)
    (hflow : isBookingFlow st msg = true)
    (hex : extract (combinedInput st msg) = .ok info)
    (f : String) (hf : f ∈ requiredFields) :
    slotValue (chat extract rag hostUrl st msg).1 f =
      if isBadValue (normVal (infoValue info f)) = true
      then slotValue st f else pyStrip (infoValue info f) := by
  simp only [requiredFields, List.mem_cons, List.not_mem_nil, or_false] at hf
  unfold chat
  rw [hflow, hex]
  simp only [if_true]
  split
  all_goals
    rcases hf with rfl | rfl | rfl | rfl | rfl <;>
      simp [slotValue, persistSlots, keepOrUpdate, normVal, infoValue]

/-- Witness for C5 at concrete inputs. -/
theorem c5_persistence_witness :
    slotValue (chat (fun _ => .ok ⟨"Alice", "not-an-email", "Therapy", "2025-03-10", "14:30"⟩)
        (fun _ => "") "http://h/"
        ⟨[], true, "Bob", "old@mail.com", "", "", ""⟩ "hello").1 "email" =
      if isBadValue (normVal (infoValue ⟨"Alice", "not-an-email", "Therapy", "2025-03-10", "14:30"⟩ "email")) = true
      then slotValue ⟨[], true, "Bob", "old@mail.com", "", "", ""⟩ "email"
      else pyStrip (infoValue ⟨"Alice", "not-an-email", "Therapy", "2025-03-10", "14:30"⟩ "email") :=
  c5_persistence (fun _ => .ok ⟨"Alice", "not-an-email", "Therapy", "2025-03-10", "14:30"⟩)
    (fun _ => "") "http://h/" ⟨[], true, "Bob", "old@mail.com", "", "", ""⟩
    "hello" ⟨"Alice", "not-an-email", "Therapy", "2025-03-10", "14:30"⟩
    (by decide) rfl "email" (by decide)

/-! ### C6: extractor failure handling -/

/-- Claim C6: while the booking flow is active, an extractor failure of
either kind leaves all five stored slots and the booking flag unchanged
(the state remains collecting), and the reply is the recovery message:
the schema-failure reply lists exactly the offending field names, the
generic failure produces the fixed recovery sentence. -/
theorem c6_failure_recovery (rag : String → String) (hostUrl : String)
    (st : SessionState) (msg : String) (flds : List String)
    (hcol : st.bookingInProgress = true) :
    (let res := chat (fun _ => .schemaFailure flds) rag hostUrl st msg
     res.1.name = st.name ∧ res.1.email = st.email ∧
     res.1.service = st.service ∧ res.1.date = st.date ∧
     res.1.time = st.time ∧ res.1.bookingInProgress = true ∧
     res.2 = "Missing or invalid: " ++ joinSep ", " flds ++
             ". Please provide them.") ∧
    (let res := chat (fun _ => .extractFailure) rag hostUrl st msg
     res.1.name = st.name ∧ res.1.email = st.email ∧
     res.1.service = st.service ∧ res.1.date = st.date ∧
     res.1.time = st.time ∧ res.1.bookingInProgress = true ∧
     res.2 = genericRecoveryReply) := by
  constructor <;>
    simp [chat, isBookingFlow, hcol]

/-- Witness for C6 at concrete inputs. -/
theorem c6_failure_recovery_witness :
    (let res := chat (fun _ => .schemaFailure ["email", "date"]) (fun _ => "")
        "http://h/" ⟨[], true, "Alice", "", "", "", ""⟩ "my info"
     res.1.name = "Alice" ∧ res.1.email = "" ∧ res.1.service = "" ∧
     res.1.date = "" ∧ res.1.time = "" ∧ res.1.bookingInProgress = true ∧
     res.2 = "Missing or invalid: " ++ joinSep ", " ["email", "date"] ++
             ". Please provide them.") ∧
    (let res := chat (fun _ => .extractFailure) (fun _ => "")
        "http://h/" ⟨[], true, "Alice", "", "", "", ""⟩ "my info"
     res.1.name = "Alice" ∧ res.1.email = "" ∧ res.1.service = "" ∧
     res.1.date = "" ∧ res.1.time = "" ∧ res.1.bookingInProgress = true ∧
     res.2 = genericRecoveryReply) :=
  c6_failure_recovery _ _ ⟨[], true, "Alice", "", "", "", ""⟩ "my info"
    ["email", "date"] (by decide)

/-! ### C8: the mode router and the question-answering frame condition -/

/-- Claim C8: the booking branch is taken exactly when a keyword occurs
in the lower-cased message or the booking flag is already set, and a
turn routed to the question-answering branch changes neither the five
slots nor the flag. -/
theorem c8_routing (extract : String → ExtractResult) (rag : String → String)
    (hostUrl : String) (st : SessionState) (msg : String) :
    (isBookingFlow st msg = true ↔
      (keywordTriggered msg ∨ st.bookingInProgress = true)) ∧
    (isBookingFlow st msg = false →
      (let res := chat extract rag hostUrl st msg
       res.1.name = st.name ∧ res.1.email = st.email ∧
       res.1.service = st.service ∧ res.1.date = st.date ∧
       res.1.time = st.time ∧
       res.1.bookingInProgress = st.bookingInProgress)) := by
  constructor
  · simp only [isBookingFlow, Bool.or_eq_true, containsKeyword,
      List.any_eq_true, isSubstr_iff, keywordTriggered]
  · intro h
    simp [chat, h]

/-- Witness for C8 at concrete inputs. -/
theorem c8_routing_witness :
    (let res := chat (fun _ => .extractFailure) (fun _ => "answer")
        "http://h/" ⟨[], false, "Alice", "a@b.co", "Therapy", "2025-03-10", "14:30"⟩
        "What services do you offer?"
     res.1.name = "Alice" ∧ res.1.email = "a@b.co" ∧
     res.1.service = "Therapy" ∧ res.1.date = "2025-03-10" ∧
     res.1.time = "14:30" ∧ res.1.bookingInProgress = false) :=
  (c8_routing (fun _ => .extractFailure) (fun _ => "answer") "http://h/"
    ⟨[], false, "Alice", "a@b.co", "Therapy", "2025-03-10", "14:30"⟩
    "What services do you offer?").2 (by decide)

/-! ### C10: the duplicated user message in the question-answering query -/

/-- Claim C10: on a question-answering turn the query handed to the RAG
generator ends with the current message twice: once as the last line of
the rendered six-entry history window (the message was appended to the
history before windowing) and once as the extra trailing line. -/
theorem c10_double_message (extract : String → ExtractResult)
    (rag : String → String) (hostUrl : String) (st : SessionState)
    (msg : String) (hqa : isBookingFlow st msg = false) :
    (chat extract rag hostUrl st msg).2 =
      rag (qaInput (st.conversationHistory ++ [⟨"user", msg⟩]) msg) ∧
    ∃ pre, qaInput (st.conversationHistory ++ [⟨"user", msg⟩]) msg =
      pre ++ ("user: " ++ msg ++ "\nuser: " ++ msg) := by
  have hlast : (lastN 6 (st.conversationHistory ++ [⟨"user", msg⟩])).getLast? =
      some ⟨"user", msg⟩ := by
    unfold lastN
    rw [List.getLast?_drop]
    have hlen : (st.conversationHistory ++ [(⟨"user", msg⟩ : DialogTurn)]).length =
        st.conversationHistory.length + 1 := by simp
    rw [if_neg (by omega), List.getLast?_concat]
  obtain ⟨pre, hpre⟩ := joinSep_getLast _ _ hlast
  refine ⟨by simp [chat, hqa], pre, ?_⟩
  unfold qaInput
  rw [hpre]
  have h1 : renderTurn ⟨"user", msg⟩ = "user: " ++ msg := by
    unfold renderTurn
    rw [show ("user" : String) ++ ": " = "user: " from by decide]
  rw [h1]
  simp only [String.append_assoc]

/-- Witness for C10 at concrete inputs. -/
theorem c10_double_message_witness :
    (chat (fun _ => .extractFailure) (fun s => s) "http://h/"
        ⟨[⟨"user", "hi"⟩, ⟨"assistant", "hello"⟩], false, "", "", "", "", ""⟩
        "What are your opening hours?").2 =
      qaInput ((⟨[⟨"user", "hi"⟩, ⟨"assistant", "hello"⟩], false, "", "", "", "", ""⟩ :
          SessionState).conversationHistory ++ [⟨"user", "What are your opening hours?"⟩])
        "What are your opening hours?" ∧
    ∃ pre, qaInput ((⟨[⟨"user", "hi"⟩, ⟨"assistant", "hello"⟩], false, "", "", "", "", ""⟩ :
          SessionState).conversationHistory ++ [⟨"user", "What are your opening hours?"⟩])
        "What are your opening hours?" =
      pre ++ ("user: " ++ "What are your opening hours?" ++ "\nuser: " ++
        "What are your opening hours?") :=
  c10_double_message (fun _ => .extractFailure) (fun s => s) "http://h/"
    ⟨[⟨"user", "hi"⟩, ⟨"assistant", "hello"⟩], false, "", "", "", "", ""⟩
    "What are your opening hours?" (by decide)

/-! ### C2: ordering of the missing-field prompt -/

/-- Counterexample to claim C2: when the date is a denylisted placeholder
but the email is merely syntactically invalid, the computed list is
date before email, violating the fixed field order (email precedes date
there). -/
theorem c2_order_counterexample :
    missingFields ⟨"Alice", "not-an-email", "Massage", "unknown", "14:30"⟩ =
      ["date", "email"] ∧
    ¬ fixedFieldOrder ["date", "email"] := by
  constructor
  · decide
  · intro h
    have := List.rel_of_pairwise_cons h (List.mem_singleton.mpr rfl)
    revert this
    decide

/-- Claim C2 as amended: the fields flagged by the denylist pass are
listed in the fixed field order, and whenever every syntactically
invalid date, time or email value is also denylisted (so the validation
pass appends nothing), the whole prompt list follows the fixed field
order. -/
theorem c2_order_amended (b : BookingInfo)
    (hd : validate_date b.date = false → isBadValue (normVal b.date) = true)
    (ht : validate_time b.time = false → isBadValue (normVal b.time) = true)
    (he : is_valid_email b.email = false → isBadValue (normVal b.email) = true) :
    fixedFieldOrder (missingFields b) := by
  have hstep : ∀ (f : String) (v : Bool), f ∈ requiredFields →
      (v = false → isBadValue (normVal (infoValue b f)) = true) →
      appendUnless (requiredFields.filter
        (fun g => isBadValue (normVal (infoValue b g)))) f v =
      requiredFields.filter (fun g => isBadValue (normVal (infoValue b g))) := by
    intro f v hf himp
    unfold appendUnless
    cases v with
    | true => simp
    | false =>
      have hmem : f ∈ requiredFields.filter
          (fun g => isBadValue (normVal (infoValue b g))) :=
        List.mem_filter.mpr ⟨hf, himp rfl⟩
      simp [hmem]
  have hbase : missingFields b =
      requiredFields.filter (fun g => isBadValue (normVal (infoValue b g))) := by
    unfold missingFields
    rw [hstep "date" _ (by decide) (fun hv => hd hv),
        hstep "time" _ (by decide) (fun hv => ht hv),
        hstep "email" _ (by decide) (fun hv => he hv)]
  rw [hbase]
  exact filter_requiredFields_pairwise _

/-- Witness for the amended C2 at concrete inputs. -/
theorem c2_order_amended_witness :
    fixedFieldOrder (missingFields ⟨"john doe", "unknown", "Massage", "2025-03-10", "14:30"⟩) :=
  c2_order_amended ⟨"john doe", "unknown", "Massage", "2025-03-10", "14:30"⟩
    (by decide) (by decide) (by decide)

/-! ### C7: the completion turn -/

/-- Claim C7: when a booking turn finds no missing field, the flag is
cleared, the merged slot values stay in the session, and the reply wraps
an HTML anchor around the booking URL, which is the fixed `book` path
resolved against the request host followed by the five stored values as
percent-encoded query parameters. -/
theorem c7_completion (extract : String → ExtractResult)
    (rag : String → String) (hostUrl : String) (st : SessionState)
    (msg : String) (info : BookingInfo)
    (hflow : isBookingFlow st msg = true)
    (hex : extract (combinedInput st msg) = .ok info)
    (hmiss : missingFields info = []) :
    (let res := chat extract rag hostUrl st msg
     res.1.bookingInProgress = false ∧
     res.1.name = keepOrUpdate st.name info.name ∧
     res.1.email = keepOrUpdate st.email info.email ∧
     res.1.service = keepOrUpdate st.service info.service ∧
     res.1.date = keepOrUpdate st.date info.date ∧
     res.1.time = keepOrUpdate st.time info.time ∧
     res.2 = completionReply (bookingUrlOf hostUrl res.1) ∧
     bookingUrlOf hostUrl res.1 = hostUrl ++ "book" ++ "?" ++
       (quote_plus "name" ++ "=" ++ quote_plus res.1.name ++ "&" ++
        (quote_plus "email" ++ "=" ++ quote_plus res.1.email ++ "&" ++
         (quote_plus "service" ++ "=" ++ quote_plus res.1.service ++ "&" ++
          (quote_plus "date" ++ "=" ++ quote_plus res.1.date ++ "&" ++
           (quote_plus "time" ++ "=" ++ quote_plus res.1.time)))))) := by
  unfold chat
  rw [hflow, hex]
  simp only [hmiss, List.isEmpty_nil, if_true]
  refine ⟨?_, ?_, ?_, ?_, ?_, ?_, ?_, ?_⟩ <;> first | rfl | trivial

/-- Witness for C7 at concrete inputs. -/
theorem c7_completion_witness :
    (let res := chat (fun _ => .ok ⟨"Alice", "alice@mail.com", "Therapy", "2025-03-10", "14:30"⟩)
        (fun _ => "") "http://h/"
        ⟨[], true, "Alice", "bad@bad", "Therapy", "", ""⟩ "my email is alice@mail.com"
     res.1.bookingInProgress = false ∧
     res.1.name = keepOrUpdate "Alice" "Alice" ∧
     res.1.email = keepOrUpdate "bad@bad" "alice@mail.com" ∧
     res.1.service = keepOrUpdate "Therapy" "Therapy" ∧
     res.1.date = keepOrUpdate "" "2025-03-10" ∧
     res.1.time = keepOrUpdate "" "14:30" ∧
     res.2 = completionReply (bookingUrlOf "http://h/" res.1) ∧
     bookingUrlOf "http://h/" res.1 = "http://h/" ++ "book" ++ "?" ++
       (quote_plus "name" ++ "=" ++ quote_plus res.1.name ++ "&" ++
        (quote_plus "email" ++ "=" ++ quote_plus res.1.email ++ "&" ++
         (quote_plus "service" ++ "=" ++ quote_plus res.1.service ++ "&" ++
          (quote_plus "date" ++ "=" ++ quote_plus res.1.date ++ "&" ++
           (quote_plus "time" ++ "=" ++ quote_plus res.1.time)))))) :=
  c7_completion (fun _ => .ok ⟨"Alice", "alice@mail.com", "Therapy", "2025-03-10", "14:30"⟩)
    (fun _ => "") "http://h/" ⟨[], true, "Alice", "bad@bad", "Therapy", "", ""⟩
    "my email is alice@mail.com" ⟨"Alice", "alice@mail.com", "Therapy", "2025-03-10", "14:30"⟩
    (by decide) rfl (by decide)

/-! ### C9: idempotence of the merge on complete valid data -/

/-- Claim C9: when the session already holds a complete, stripped,
non-denylisted and syntactically valid slot set and the extractor
returns exactly the same five values, the turn leaves every slot value
unchanged and produces the completion reply for the same booking URL as
the previous completion. -/
theorem c9_idempotent (extract : String → ExtractResult)
    (rag : String → String) (hostUrl : String) (st : SessionState) (msg : String)
    (hflow : isBookingFlow st msg = true)
    (htrim : pyStrip st.name = st.name ∧ pyStrip st.email = st.email ∧
      pyStrip st.service = st.service ∧ pyStrip st.date = st.date ∧
      pyStrip st.time = st.time)
    (hgood : isBadValue (pyLower st.name) = false ∧
      isBadValue (pyLower st.email) = false ∧
      isBadValue (pyLower st.service) = false ∧
      isBadValue (pyLower st.date) = false ∧
      isBadValue (pyLower st.time) = false)
    (hvalid : validate_date st.date = true ∧ validate_time st.time = true ∧
      is_valid_email st.email = true)
    (hex : extract (combinedInput st msg) =
      .ok ⟨st.name, st.email, st.service, st.date, st.time⟩) :
    (let res := chat extract rag hostUrl st msg
     res.1.name = st.name ∧ res.1.email = st.email ∧
     res.1.service = st.service ∧ res.1.date = st.date ∧
     res.1.time = st.time ∧ res.1.bookingInProgress = false ∧
     res.2 = completionReply (bookingUrlOf hostUrl st)) := by
  obtain ⟨ht1, ht2, ht3, ht4, ht5⟩ := htrim
  obtain ⟨hg1, hg2, hg3, hg4, hg5⟩ := hgood
  obtain ⟨hv1, hv2, hv3⟩ := hvalid
  have hku : ∀ old v : String, pyStrip v = v → isBadValue (pyLower v) = false →
      keepOrUpdate old v = v := by
    intro old v hsv hbv
    unfold keepOrUpdate
    rw [hsv]
    show (if isBadValue (pyLower v) = true then old else v) = v
    rw [hbv]
    simp
  have hmiss : missingFields ⟨st.name, st.email, st.service, st.date, st.time⟩ = [] := by
    unfold missingFields
    have hfil : requiredFields.filter (fun f => isBadValue (normVal (infoValue
        ⟨st.name, st.email, st.service, st.date, st.time⟩ f))) = [] := by
      show List.filter _ ["name", "email", "service", "date", "time"] = []
      simp only [List.filter, infoValue, normVal, ht1, ht2, ht3, ht4, ht5,
        hg1, hg2, hg3, hg4, hg5]
    rw [hfil]
    show appendUnless (appendUnless (appendUnless [] "date" (validate_date st.date))
      "time" (validate_time st.time)) "email" (is_valid_email st.email) = []
    rw [hv1, hv2, hv3]
    simp [appendUnless]
  have hkn : keepOrUpdate st.name st.name = st.name := hku _ _ ht1 hg1
  have hke : keepOrUpdate st.email st.email = st.email := hku _ _ ht2 hg2
  have hks : keepOrUpdate st.service st.service = st.service := hku _ _ ht3 hg3
  have hkd : keepOrUpdate st.date st.date = st.date := hku _ _ ht4 hg4
  have hkt : keepOrUpdate st.time st.time = st.time := hku _ _ ht5 hg5
  unfold chat
  rw [hflow, hex]
  simp only [hmiss, List.isEmpty_nil, if_true, persistSlots, bookingUrlOf,
    hkn, hke, hks, hkd, hkt]
  refine ⟨?_, ?_, ?_, ?_, ?_, ?_, ?_⟩ <;> first | rfl | trivial

/-- Witness for C9 at concrete inputs. -/
theorem c9_idempotent_witness :
    (let res := chat (fun _ => .ok ⟨"Alice", "alice@mail.com", "Therapy", "2025-03-10", "14:30"⟩)
        (fun _ => "") "http://h/"
        ⟨[], false, "Alice", "alice@mail.com", "Therapy", "2025-03-10", "14:30"⟩ "book again"
     res.1.name = "Alice" ∧ res.1.email = "alice@mail.com" ∧
     res.1.service = "Therapy" ∧ res.1.date = "2025-03-10" ∧
     res.1.time = "14:30" ∧ res.1.bookingInProgress = false ∧
     res.2 = completionReply (bookingUrlOf "http://h/"
       ⟨[], false, "Alice", "alice@mail.com", "Therapy", "2025-03-10", "14:30"⟩)) :=
  c9_idempotent (fun _ => .ok ⟨"Alice", "alice@mail.com", "Therapy", "2025-03-10", "14:30"⟩)
    (fun _ => "") "http://h/"
    ⟨[], false, "Alice", "alice@mail.com", "Therapy", "2025-03-10", "14:30"⟩
    "book again" (by decide) (by decide) (by decide) (by decide) rfl

/-! ### C4: the email validator -/

/-- Characters are determined by their code. -/
theorem cv_inj {a b : Char} (h : cv a = cv b) : a = b :=
  Char.eq_of_val_eq (UInt32.ext h)

/-- A negated emptiness test in the matcher corresponds to a non-nil
list. -/
theorem bnot_isEmpty_iff (l : List Char) : (!l.isEmpty) = true ↔ l ≠ [] := by
  cases l <;> simp

/-- Tail of the domain matcher, characterized as a split. -/
theorem emailDomRest_iff (l : List Char) :
    emailDomRest l = true ↔
      ∃ mid tld, l = mid ++ '.' :: tld ∧ mid.all noAtWs = true ∧
        tld ≠ [] ∧ tld.all isAlnumAscii = true := by
  induction l with
  | nil =>
    constructor
    · intro h
      simp [emailDomRest] at h
    · rintro ⟨mid, tld, heq, -⟩
      exact absurd heq.symm
        (List.append_ne_nil_of_right_ne_nil mid (List.cons_ne_nil _ _))
  | cons c cs ih =>
    simp only [emailDomRest, Bool.or_eq_true, Bool.and_eq_true,
      decide_eq_true_eq, bnot_isEmpty_iff, ih]
    constructor
    · rintro (⟨h46, hne, halnum⟩ | ⟨hc, mid, tld, rfl, hmid, htld, halnum⟩)
      · have hc : c = '.' := cv_inj (by rw [h46]; rfl)
        subst hc
        exact ⟨[], cs, rfl, rfl, hne, halnum⟩
      · exact ⟨c :: mid, tld, rfl, by simp [hmid, hc], htld, halnum⟩
    · rintro ⟨mid, tld, heq, hmid, htld, halnum⟩
      cases mid with
      | nil =>
        simp only [List.nil_append, List.cons.injEq] at heq
        obtain ⟨rfl, rfl⟩ := heq
        exact Or.inl ⟨rfl, htld, halnum⟩
      | cons m ms =>
        simp only [List.cons_append, List.cons.injEq] at heq
        obtain ⟨rfl, heq2⟩ := heq
        rw [List.all_cons, Bool.and_eq_true] at hmid
        exact Or.inr ⟨hmid.1, ms, tld, heq2, hmid.2, htld, halnum⟩

/-- The domain matcher, characterized as a split. -/
theorem emailDom_iff (l : List Char) :
    emailDom l = true ↔
      ∃ mid tld, l = mid ++ '.' :: tld ∧ mid ≠ [] ∧ mid.all noAtWs = true ∧
        tld ≠ [] ∧ tld.all isAlnumAscii = true := by
  cases l with
  | nil =>
    constructor
    · intro h
      simp [emailDom] at h
    · rintro ⟨mid, tld, heq, -⟩
      exact absurd heq.symm
        (List.append_ne_nil_of_right_ne_nil mid (List.cons_ne_nil _ _))
  | cons c cs =>
    simp only [emailDom, Bool.and_eq_true, emailDomRest_iff]
    constructor
    · rintro ⟨hc, mid, tld, rfl, hmid, htld, halnum⟩
      exact ⟨c :: mid, tld, rfl, List.cons_ne_nil _ _, by simp [hmid, hc],
        htld, halnum⟩
    · rintro ⟨mid, tld, heq, hne, hmid, htld, halnum⟩
      cases mid with
      | nil => exact absurd rfl hne
      | cons m ms =>
        simp only [List.cons_append, List.cons.injEq] at heq
        obtain ⟨rfl, heq2⟩ := heq
        rw [List.all_cons, Bool.and_eq_true] at hmid
        exact ⟨hmid.1, ms, tld, heq2, hmid.2, htld, halnum⟩

/-- Tail of the local-part matcher, characterized as a split. -/
theorem emailLocalRest_iff (l : List Char) :
    emailLocalRest l = true ↔
      ∃ pre post, l = pre ++ '@' :: post ∧ pre.all noAtWs = true ∧
        emailDom post = true := by
  induction l with
  | nil =>
    constructor
    · intro h
      simp [emailLocalRest] at h
    · rintro ⟨pre, post, heq, -⟩
      exact absurd heq.symm
        (List.append_ne_nil_of_right_ne_nil pre (List.cons_ne_nil _ _))
  | cons c cs ih =>
    simp only [emailLocalRest, Bool.or_eq_true, Bool.and_eq_true,
      decide_eq_true_eq, ih]
    constructor
    · rintro (⟨h64, hdom⟩ | ⟨hc, pre, post, rfl, hpre, hdom⟩)
      · have hc : c = '@' := cv_inj (by rw [h64]; rfl)
        subst hc
        exact ⟨[], cs, rfl, rfl, hdom⟩
      · exact ⟨c :: pre, post, rfl, by simp [hpre, hc], hdom⟩
    · rintro ⟨pre, post, heq, hpre, hdom⟩
      cases pre with
      | nil =>
        simp only [List.nil_append, List.cons.injEq] at heq
        obtain ⟨rfl, rfl⟩ := heq
        exact Or.inl ⟨rfl, hdom⟩
      | cons p ps =>
        simp only [List.cons_append, List.cons.injEq] at heq
        obtain ⟨rfl, heq2⟩ := heq
        rw [List.all_cons, Bool.and_eq_true] at hpre
        exact Or.inr ⟨hpre.1, ps, post, heq2, hpre.2, hdom⟩

/-- The whole email matcher, characterized as a split. -/
theorem emailMatch_iff (l : List Char) :
    emailMatch l = true ↔
      ∃ lp post, l = lp ++ '@' :: post ∧ lp ≠ [] ∧ lp.all noAtWs = true ∧
        emailDom post = true := by
  cases l with
  | nil =>
    constructor
    · intro h
      simp [emailMatch] at h
    · rintro ⟨lp, post, heq, -⟩
      exact absurd heq.symm
        (List.append_ne_nil_of_right_ne_nil lp (List.cons_ne_nil _ _))
  | cons c cs =>
    simp only [emailMatch, Bool.and_eq_true, emailLocalRest_iff]
    constructor
    · rintro ⟨hc, pre, post, rfl, hpre, hdom⟩
      exact ⟨c :: pre, post, rfl, List.cons_ne_nil _ _, by simp [hpre, hc], hdom⟩
    · rintro ⟨lp, post, heq, hne, hlp, hdom⟩
      cases lp with
      | nil => exact absurd rfl hne
      | cons p ps =>
        simp only [List.cons_append, List.cons.injEq] at heq
        obtain ⟨rfl, heq2⟩ := heq
        rw [List.all_cons, Bool.and_eq_true] at hlp
        exact ⟨hlp.1, ps, post, heq2, hlp.2, hdom⟩

/-- Counterexample to claim C4: the value with a trailing newline is
accepted by the code (Python's final `$` matches before one trailing
newline) although it contains whitespace, so it does not have the
claimed shape. -/
theorem c4_email_counterexample :
    is_valid_email "a@b.c\n" = true ∧ ¬ emailClaimShape "a@b.c\n" := by
  refine ⟨by decide, ?_⟩
  rintro ⟨hws, -⟩
  have h := hws '\n' (by decide)
  revert h
  decide

/-- Claim C4 as amended: the validator accepts exactly the strings that,
after discarding at most one trailing newline, split as a non-empty
at-free whitespace-free local part, an at-sign, a non-empty at-free
whitespace-free domain middle (further dots allowed), a dot and a
non-empty alphanumeric top-level part. -/
theorem c4_email_amended (s : String) :
    is_valid_email s = true ↔ emailAmendedSpec s := by
  unfold is_valid_email emailAmendedSpec
  rw [emailMatch_iff]
  constructor
  · rintro ⟨lp, post, heq, hlp, hall, hdom⟩
    rw [emailDom_iff] at hdom
    obtain ⟨mid, tld, rfl, hm, hma, ht, hta⟩ := hdom
    exact ⟨lp, mid, tld, heq, hlp, hall, hm, hma, ht, hta⟩
  · rintro ⟨lp, mid, tld, heq, hlp, hall, hm, hma, ht, hta⟩
    exact ⟨lp, mid ++ '.' :: tld, heq, hlp, hall,
      (emailDom_iff _).mpr ⟨mid, tld, rfl, hm, hma, ht, hta⟩⟩

/-! ### C3: the date validator -/

/-- Value of a one-digit string. -/
theorem digitsVal_one (a : Char) : digitsVal [a] = dVal a := by
  simp [digitsVal]

/-- Value of a two-digit string. -/
theorem digitsVal_two (a b : Char) : digitsVal [a, b] = 10 * dVal a + dVal b := by
  simp [digitsVal]

/-- Value of a four-digit string. -/
theorem digitsVal_four (a b c d : Char) :
    digitsVal [a, b, c, d] =
      1000 * dVal a + 100 * dVal b + 10 * dVal c + dVal d := by
  simp [digitsVal]
  ring

/-- Every month length is at most 31 days. -/
theorem daysInMonth_le_31 (y m : Nat) : daysInMonth y m ≤ 31 := by
  unfold daysInMonth
  split_ifs <;> omega

/-- An ASCII code point in the digit range is found in the first digit
block. -/
theorem digitStart?_ascii {n : Nat} (h1 : 48 ≤ n) (h2 : n ≤ 57) :
    digitStart? n = some 48 := by
  unfold digitStart? digitBlockStarts
  exact List.find?_cons_of_pos _ (by simp; omega)

/-- The ASCII digit test, spelled out. -/
theorem isAsciiDigit_iff (c : Char) :
    isAsciiDigit c = true ↔ 48 ≤ cv c ∧ cv c ≤ 57 := by
  unfold isAsciiDigit
  rw [Bool.and_eq_true, decide_eq_true_eq, decide_eq_true_eq]

/-- Every ASCII digit is a Unicode decimal digit. -/
theorem isAsciiDigit_isDig {c : Char} (h : isAsciiDigit c = true) :
    isDig c = true := by
  rw [isAsciiDigit_iff] at h
  unfold isDig
  rw [digitStart?_ascii h.1 h.2]
  rfl

/-- The value of an ASCII digit is its offset from code 48. -/
theorem dVal_ascii {c : Char} (h : isAsciiDigit c = true) :
    dVal c = cv c - 48 := by
  rw [isAsciiDigit_iff] at h
  unfold dVal
  rw [digitStart?_ascii h.1 h.2]

/-- Every decimal digit has value at most nine. -/
theorem dVal_le_nine {c : Char} (h : isDig c = true) : dVal c ≤ 9 := by
  unfold isDig at h
  rw [Option.isSome_iff_exists] at h
  obtain ⟨s, hs⟩ := h
  have hs2 := hs
  unfold digitStart? at hs2
  have hp := List.find?_some hs2
  rw [Bool.and_eq_true, decide_eq_true_eq, decide_eq_true_eq] at hp
  unfold dVal
  rw [hs]
  show cv c - s ≤ 9
  omega

/-- The day group accepts exactly the day shapes above whose value names
a day that exists in the given month. -/
theorem dayPart_iff (y m : Nat) (r : List Char) :
    dayPart y m r = true ↔
      dayShape r ∧ 1 ≤ digitsVal r ∧ digitsVal r ≤ daysInMonth y m ∧
      1 ≤ y ∧ y ≤ 9999 ∧ 1 ≤ m ∧ m ≤ 12 := by
  have hD := daysInMonth_le_31 y m
  rcases r with _ | ⟨c, _ | ⟨d, _ | ⟨e, t⟩⟩⟩
  · constructor
    · intro h
      simp [dayPart] at h
    · rintro ⟨hs, -⟩
      rcases hs with ⟨c, heq, -⟩ | ⟨c, d, heq, -⟩ <;> simp at heq
  · constructor
    · intro h
      have h2 : (oneDay c && dateOk y m (dVal c)) = true := h
      rw [Bool.and_eq_true] at h2
      obtain ⟨h1, h2⟩ := h2
      unfold oneDay at h1
      rw [Bool.and_eq_true, decide_eq_true_eq, decide_eq_true_eq] at h1
      unfold dateOk at h2
      simp only [Bool.and_eq_true, decide_eq_true_eq, and_assoc] at h2
      obtain ⟨hy1, hy2, hm1, hm2, hd1, hd2⟩ := h2
      rw [digitsVal_one]
      exact ⟨Or.inl ⟨c, rfl, by rw [isAsciiDigit_iff]; omega⟩, hd1, hd2,
        hy1, hy2, hm1, hm2⟩
    · rintro ⟨hs, hlo, hhi, hy1, hy2, hm1, hm2⟩
      rw [digitsVal_one] at hlo hhi
      rcases hs with ⟨c2, heq, ha⟩ | ⟨c2, d2, heq, -⟩
      · simp only [List.cons.injEq] at heq
        obtain ⟨heq1, -⟩ := heq
        subst heq1
        have hvc : dVal c = cv c - 48 := dVal_ascii ha
        rw [isAsciiDigit_iff] at ha
        show (oneDay c && dateOk y m (dVal c)) = true
        rw [Bool.and_eq_true]
        refine ⟨?_, ?_⟩
        · unfold oneDay
          rw [Bool.and_eq_true, decide_eq_true_eq, decide_eq_true_eq]
          omega
        · unfold dateOk
          simp only [Bool.and_eq_true, decide_eq_true_eq, and_assoc]
          exact ⟨hy1, hy2, hm1, hm2, hlo, hhi⟩
      · simp at heq
  · constructor
    · intro h
      have h2 : (twoDay c d && dateOk y m (10 * dVal c + dVal d)) = true := h
      rw [Bool.and_eq_true] at h2
      obtain ⟨h1, h2⟩ := h2
      unfold dateOk at h2
      simp only [Bool.and_eq_true, decide_eq_true_eq, and_assoc] at h2
      obtain ⟨hy1, hy2, hm1, hm2, hd1, hd2⟩ := h2
      unfold twoDay at h1
      simp only [Bool.or_eq_true, Bool.and_eq_true, decide_eq_true_eq] at h1
      rw [digitsVal_two]
      refine ⟨Or.inr ⟨c, d, rfl, ?_, ?_, ?_⟩, hd1, hd2, hy1, hy2, hm1, hm2⟩
      · rcases h1 with (⟨hc, -⟩ | ⟨hc, -⟩) | ⟨hc, -⟩ <;>
          (rw [isAsciiDigit_iff]; omega)
      · rcases h1 with (⟨-, hd⟩ | ⟨-, hd⟩) | ⟨-, hd⟩
        · exact isAsciiDigit_isDig (by rw [isAsciiDigit_iff]; omega)
        · exact hd
        · exact isAsciiDigit_isDig (by rw [isAsciiDigit_iff]; omega)
      · rcases h1 with (⟨hc, hd⟩ | ⟨hc, hd⟩) | ⟨hc, hd⟩
        · exact Or.inr (Or.inr (by rw [isAsciiDigit_iff]; omega))
        · rcases hc with hc | hc
          · exact Or.inl hc
          · exact Or.inr (Or.inl hc)
        · exact Or.inr (Or.inr (by rw [isAsciiDigit_iff]; omega))
    · rintro ⟨hs, hlo, hhi, hy1, hy2, hm1, hm2⟩
      rw [digitsVal_two] at hlo hhi
      rcases hs with ⟨c2, heq, -⟩ | ⟨c2, d2, heq, ha, hdig, hguard⟩
      · simp at heq
      · simp only [List.cons.injEq] at heq
        obtain ⟨heq1, heq2, -⟩ := heq
        subst heq1
        subst heq2
        have hvc : dVal c = cv c - 48 := dVal_ascii ha
        have hvd9 : dVal d ≤ 9 := dVal_le_nine hdig
        rw [isAsciiDigit_iff] at ha
        show (twoDay c d && dateOk y m (10 * dVal c + dVal d)) = true
        rw [Bool.and_eq_true]
        refine ⟨?_, ?_⟩
        · unfold twoDay
          simp only [Bool.or_eq_true, Bool.and_eq_true, decide_eq_true_eq]
          rcases hguard with hg | hg | hg
          · exact Or.inl (Or.inr ⟨Or.inl hg, hdig⟩)
          · exact Or.inl (Or.inr ⟨Or.inr hg, hdig⟩)
          · have hvd : dVal d = cv d - 48 := dVal_ascii hg
            rw [isAsciiDigit_iff] at hg
            have hc : cv c = 48 ∨ cv c = 49 ∨ cv c = 50 ∨ cv c = 51 := by
              omega
            rcases hc with hc | hc | hc | hc
            · exact Or.inr ⟨hc, by omega, by omega⟩
            · exact Or.inl (Or.inr ⟨Or.inl hc, hdig⟩)
            · exact Or.inl (Or.inr ⟨Or.inr hc, hdig⟩)
            · exact Or.inl (Or.inl ⟨hc, by omega⟩)
        · unfold dateOk
          simp only [Bool.and_eq_true, decide_eq_true_eq, and_assoc]
          exact ⟨hy1, hy2, hm1, hm2, hlo, hhi⟩
  · constructor
    · intro h
      simp [dayPart] at h
    · rintro ⟨hs, -⟩
      rcases hs with ⟨c2, heq, -⟩ | ⟨c2, d2, heq, -⟩ <;> simp at heq

/-- The literal dash before the day group. -/
theorem afterMonth_iff (y m : Nat) (r : List Char) :
    afterMonth y m r = true ↔
      ∃ rest, r = '-' :: rest ∧ dayPart y m rest = true := by
  cases r with
  | nil =>
    constructor
    · intro h
      simp [afterMonth] at h
    · rintro ⟨rest, heq, -⟩
      simp at heq
  | cons c cs =>
    simp only [afterMonth, Bool.and_eq_true, beq_iff_eq]
    constructor
    · rintro ⟨rfl, h⟩
      exact ⟨cs, rfl, h⟩
    · rintro ⟨rest, heq, h⟩
      simp only [List.cons.injEq] at heq
      obtain ⟨rfl, rfl⟩ := heq
      exact ⟨rfl, h⟩

/-- The month group with its trailing dash and day group accepts exactly
a one- or two-ASCII-digit month number from one to twelve, a dash, and
an acceptable day. -/
theorem monthPart_iff (y : Nat) (r : List Char) :
    monthPart y r = true ↔
      ∃ ms rest, r = ms ++ '-' :: rest ∧
        (ms.length = 1 ∨ ms.length = 2) ∧ ms.all isAsciiDigit = true ∧
        1 ≤ digitsVal ms ∧ digitsVal ms ≤ 12 ∧
        dayPart y (digitsVal ms) rest = true := by
  rcases r with _ | ⟨m1, _ | ⟨m2, r2⟩⟩
  · constructor
    · intro h
      simp [monthPart, monthTwo, monthOne, afterMonth] at h
    · rintro ⟨ms, rest, heq, -⟩
      exact absurd heq.symm
        (List.append_ne_nil_of_right_ne_nil ms (List.cons_ne_nil _ _))
  · constructor
    · intro h
      simp [monthPart, monthTwo, monthOne, afterMonth] at h
    · rintro ⟨ms, rest, heq, hlen, -⟩
      have hl := congrArg List.length heq
      simp [List.length_append] at hl
      omega
  · simp only [monthPart, monthTwo, monthOne, Bool.or_eq_true,
      Bool.and_eq_true, decide_eq_true_eq, afterMonth_iff]
    constructor
    · rintro ((⟨⟨h1, h2, h3⟩, rest, hr2, hday⟩ | ⟨⟨h1, h2, h3⟩, rest, hr2, hday⟩) |
        ⟨⟨h1, h2⟩, rest, heq, hday⟩)
      · subst hr2
        have hva : dVal m1 = cv m1 - 48 :=
          dVal_ascii (by rw [isAsciiDigit_iff]; omega)
        have hvb : dVal m2 = cv m2 - 48 :=
          dVal_ascii (by rw [isAsciiDigit_iff]; omega)
        have hval : digitsVal [m1, m2] = 10 + dVal m2 := by
          rw [digitsVal_two]
          omega
        refine ⟨[m1, m2], rest, rfl, Or.inr rfl, ?_, ?_, ?_, ?_⟩
        · simp only [List.all_cons, List.all_nil, Bool.and_eq_true, and_true,
            isAsciiDigit_iff]
          omega
        · rw [hval]
          omega
        · rw [hval]
          omega
        · rw [hval]
          exact hday
      · subst hr2
        have hva : dVal m1 = cv m1 - 48 :=
          dVal_ascii (by rw [isAsciiDigit_iff]; omega)
        have hvb : dVal m2 = cv m2 - 48 :=
          dVal_ascii (by rw [isAsciiDigit_iff]; omega)
        have hval : digitsVal [m1, m2] = dVal m2 := by
          rw [digitsVal_two]
          omega
        refine ⟨[m1, m2], rest, rfl, Or.inr rfl, ?_, ?_, ?_, ?_⟩
        · simp only [List.all_cons, List.all_nil, Bool.and_eq_true, and_true,
            isAsciiDigit_iff]
          omega
        · rw [hval]
          omega
        · rw [hval]
          omega
        · rw [hval]
          exact hday
      · simp only [List.cons.injEq] at heq
        obtain ⟨rfl, rfl⟩ := heq
        have hva : dVal m1 = cv m1 - 48 :=
          dVal_ascii (by rw [isAsciiDigit_iff]; omega)
        refine ⟨[m1], r2, rfl, Or.inl rfl, ?_, ?_, ?_, ?_⟩
        · simp only [List.all_cons, List.all_nil, Bool.and_eq_true, and_true,
            isAsciiDigit_iff]
          omega
        · rw [digitsVal_one]
          omega
        · rw [digitsVal_one]
          omega
        · rw [digitsVal_one]
          exact hday
    · rintro ⟨ms, rest, heq, hlen, hdig, hlo, hhi, hday⟩
      rcases ms with _ | ⟨x1, _ | ⟨x2, _ | ⟨x3, xt⟩⟩⟩
      · simp at hlen
      · simp only [List.cons_append, List.nil_append, List.cons.injEq] at heq
        obtain ⟨rfl, rfl, rfl⟩ := heq
        simp only [List.all_cons, List.all_nil, Bool.and_eq_true, and_true,
          isAsciiDigit_iff] at hdig
        have hva : dVal m1 = cv m1 - 48 :=
          dVal_ascii (by rw [isAsciiDigit_iff]; omega)
        rw [digitsVal_one] at hlo hhi hday
        refine Or.inr ⟨⟨?_, ?_⟩, r2, rfl, hday⟩
        · omega
        · omega
      · simp only [List.cons_append, List.nil_append, List.cons.injEq] at heq
        obtain ⟨rfl, rfl, heq2⟩ := heq
        simp only [List.all_cons, List.all_nil, Bool.and_eq_true, and_true,
          isAsciiDigit_iff] at hdig
        have hva : dVal m1 = cv m1 - 48 :=
          dVal_ascii (by rw [isAsciiDigit_iff]; omega)
        have hvb : dVal m2 = cv m2 - 48 :=
          dVal_ascii (by rw [isAsciiDigit_iff]; omega)
        rw [digitsVal_two] at hlo hhi hday
        have hc : cv m1 = 48 ∨ cv m1 = 49 := by
          omega
        rcases hc with hc | hc
        · refine Or.inl (Or.inr ⟨⟨hc, ?_, ?_⟩, rest, heq2, ?_⟩)
          · omega
          · omega
          · have hv : 10 * dVal m1 + dVal m2 = dVal m2 := by omega
            rw [hv] at hday
            exact hday
        · refine Or.inl (Or.inl ⟨⟨hc, ?_, ?_⟩, rest, heq2, ?_⟩)
          · omega
          · omega
          · have hv : 10 * dVal m1 + dVal m2 = 10 + dVal m2 := by omega
            rw [hv] at hday
            exact hday
      · rcases hlen with hlen | hlen <;> simp at hlen

/-- The full date regex with the constructor checks accepts exactly the
amended shape. -/
theorem dateMatch_iff (l : List Char) : dateMatch l = true ↔ dateSpecL l := by
  have hshort : ∀ l2 : List Char, dateSpecL l2 → 8 ≤ l2.length := by
    rintro l2 ⟨ys, ms, ds, rfl, h4, -, hm, -, hshape, -, -, -, -, -⟩
    have hds : ds.length = 1 ∨ ds.length = 2 := by
      rcases hshape with ⟨c, rfl, -⟩ | ⟨c, d, rfl, -⟩
      · exact Or.inl rfl
      · exact Or.inr rfl
    simp only [List.length_append, List.length_cons, h4]
    rcases hm with hm | hm <;> rcases hds with hd | hd <;> rw [hm, hd] <;> omega
  rcases l with _ | ⟨c1, _ | ⟨c2, _ | ⟨c3, _ | ⟨c4, _ | ⟨c5, r⟩⟩⟩⟩⟩
  · exact ⟨fun h => by simp [dateMatch] at h,
      fun h => by have := hshort _ h; simp at this⟩
  · exact ⟨fun h => by simp [dateMatch] at h,
      fun h => by have := hshort _ h; simp at this⟩
  · exact ⟨fun h => by simp [dateMatch] at h,
      fun h => by have := hshort _ h; simp at this⟩
  · exact ⟨fun h => by simp [dateMatch] at h,
      fun h => by have := hshort _ h; simp at this⟩
  · exact ⟨fun h => by simp [dateMatch] at h,
      fun h => by have := hshort _ h; simp at this⟩
  · simp only [dateMatch, Bool.and_eq_true, decide_eq_true_eq, beq_iff_eq,
      monthPart_iff, and_assoc]
    constructor
    · rintro ⟨h1, h2, h3, h4, rfl, ms, rest, rfl, hmlen, hmdig, hmlo, hmhi, hday⟩
      rw [dayPart_iff] at hday
      obtain ⟨hshape, hdlo, hdhi, hy1, hy2, -, -⟩ := hday
      refine ⟨[c1, c2, c3, c4], ms, rest, rfl, rfl, ?_, hmlen, hmdig, hshape,
        ?_, hmlo, hmhi, hdlo, ?_⟩
      · simp [h1, h2, h3, h4]
      · rw [digitsVal_four]
        exact hy1
      · rw [digitsVal_four]
        exact hdhi
    · rintro ⟨ys, ms, ds, heq, h4, hysdig, hmlen, hmdig, hshape, hy1,
        hmlo, hmhi, hdlo, hdhi⟩
      rcases ys with _ | ⟨a1, _ | ⟨a2, _ | ⟨a3, _ | ⟨a4, _ | ⟨a5, yt⟩⟩⟩⟩⟩ <;>
        simp only [List.length_cons, List.length_nil] at h4 <;>
        try omega
      simp only [List.cons_append, List.nil_append, List.cons.injEq] at heq
      obtain ⟨rfl, rfl, rfl, rfl, rfl, rfl⟩ := heq
      simp only [List.all_cons, List.all_nil, Bool.and_eq_true, and_true]
        at hysdig
      obtain ⟨hb1, hb2, hb3, hb4⟩ := hysdig
      have h91 := dVal_le_nine hb1
      have h92 := dVal_le_nine hb2
      have h93 := dVal_le_nine hb3
      have h94 := dVal_le_nine hb4
      rw [digitsVal_four] at hy1 hdhi
      refine ⟨hb1, hb2, hb3, hb4, rfl, ms, ds, rfl, hmlen, hmdig, hmlo,
        hmhi, ?_⟩
      rw [dayPart_iff]
      exact ⟨hshape, hdlo, hdhi, hy1, by omega, hmlo, hmhi⟩

/-- Counterexample to claim C3: the non-zero-padded value is accepted by
the code although it is not of the claimed zero-padded shape (its
length alone rules the shape out). -/
theorem c3_date_counterexample :
    validate_date "2024-2-9" = true ∧ ¬ zeroPaddedDateShape "2024-2-9" := by
  refine ⟨by decide, ?_⟩
  rintro ⟨ys, ms, ds, heq, h4, h2m, h2d, -⟩
  have hlen := congrArg List.length heq
  have hdat : ("2024-2-9".data).length = 8 := by decide
  rw [hdat] at hlen
  simp only [List.length_append, List.length_cons, h4, h2m, h2d] at hlen
  omega

/-- The embedded validator reproduces the Unicode-digit behavior of the
program: a fully or partly non-ASCII year is accepted, a non-ASCII
second day digit is accepted after a leading one or two, and the
ASCII-only classes reject non-ASCII digits elsewhere. -/
theorem validate_date_unicode_digits :
    validate_date "٢٠٢٤-02-09" = true ∧
    validate_date "2024-02-1٢" = true ∧
    validate_date "2024-٠2-09" = false ∧
    validate_date "2024-02-٢" = false ∧
    validate_date "2024-02-3٠" = false := by
  decide

/-- Likewise for the time validator: the bare and second-position `\d`
spots accept any decimal digit, the bracket classes ASCII only. -/
theorem validate_time_unicode_digits :
    validate_time "1٤:30" = true ∧ validate_time "٤:30" = true ∧
    validate_time "14:3٠" = true ∧ validate_time "2٤:30" = false ∧
    validate_time "14:٣0" = false := by
  decide

/-- Claim C3 as amended: the validator accepts exactly the real calendar
dates written as a four-digit year (any Unicode decimal digits), a
dash, a one- or two-ASCII-digit month, a dash and a one- or two-digit
day whose first digit is ASCII and whose second digit may be any
Unicode decimal digit after a leading one or two; zero padding of month
and day is optional.  In particular "2024-02-29" is accepted,
"2024-02-30" is not, and the unpadded "2024-2-9" is accepted, as are
Unicode-digit forms such as "٢٠٢٤-02-09". -/
theorem c3_validate_date_amended (s : String) :
    validate_date s = true ↔ dateSpecL s.data :=
  dateMatch_iff s.data
